import Mathlib

/-!
Shallow embedding of `setup.py` from the Turbine repository.

The script reads `README.md`, rewrites every markdown link opener
with an absolute GitHub URL via Python's `str.replace`, and calls
`setuptools.setup` with a fixed set of keyword arguments.  We embed the
keyword-argument list as a Lean value parametrized by the README contents,
and `str.replace` as a fueled recursion over character lists, so that all
definitions compute.
-/

/-- Checks whether `pat` is a prefix of `l`, character by character.  This is
how Python's substring machinery tests for a match at a single position. -/
def startsWithPat : List Char → List Char → Bool
  | [], _ => true
  | _ :: _, [] => false
  | p :: ps, c :: cs => p == c && startsWithPat ps cs

/-- Left-to-right, non-overlapping replacement of `pat` by `rep`, the
semantics of Python's `str.replace` for a nonempty pattern.  The fuel only
bounds the recursion depth; `pyReplace` supplies the length of the input,
which is always enough since a nonempty pattern consumes at least one
character per step. -/
def replaceFuel (pat rep : List Char) : Nat → List Char → List Char
  | 0, l => l
  | fuel + 1, l =>
    match l with
    | [] => []
    | c :: cs =>
      if 0 < pat.length ∧ startsWithPat pat (c :: cs) = true then
        rep ++ replaceFuel pat rep fuel (List.drop pat.length (c :: cs))
      else
        c :: replaceFuel pat rep fuel cs

/-- Embedding of Python's `s.replace(pat, rep)` for a nonempty pattern. -/
def pyReplace (s pat rep : String) : String :=
  ⟨replaceFuel pat.data rep.data s.data.length s.data⟩

/-- The pattern replaced in `setup.py`: the markdown link opener. -/
def linkPat : String := "]("

/-- The replacement string in `setup.py`: the link opener followed by the
absolute GitHub URL of the repository's master branch. -/
def linkTarget : String := "](https://github.com/Kasekopf/Turbine/blob/master/"

/-- The `long_description` value computed by `setup.py` from the contents of
`README.md`: `fh.read().replace("](", "](https://github.com/Kasekopf/Turbine/blob/master/")`. -/
def longDescription (readme : String) : String :=
  pyReplace readme linkPat linkTarget

/-- A Python value passed as a keyword argument to `setuptools.setup`:
a string literal, a list of string literals, or the result of the
`setuptools.find_packages()` call. -/
inductive SetupValue where
  | str : String → SetupValue
  | strList : List String → SetupValue
  | findPackagesCall : SetupValue
deriving DecidableEq, Repr

/-- The keyword arguments passed to `setuptools.setup` in `setup.py`, in
source order, as a key/value list parametrized by the README contents. -/
def setupKwargs (readme : String) : List (String × SetupValue) :=
  [("name", .str "turbine"),
   ("version", .str "0.1.0"),
   ("author", .str "Jeffrey Dudek"),
   ("author_email", .str "jeffreydudek@gmail.com"),
   ("description",
     .str "A Python 3 tool to harness the google cloud to run shell scripts"),
   ("long_description", .str (longDescription readme)),
   ("long_description_content_type", .str "text/markdown"),
   ("url", .str "https://github.com/Kasekopf/Turbine"),
   ("packages", .findPackagesCall),
   ("license", .str "MIT"),
   ("platforms", .str "Posix; MacOS X; Windows"),
   ("install_requires",
     .strList ["google-cloud-pubsub", "google-cloud-storage",
               "google-cloud-logging", "google-api-python-client"]),
   ("python_requires", .str ">=3.6"),
   ("classifiers",
     .strList ["Programming Language :: Python :: 3",
               "License :: OSI Approved :: MIT License",
               "Operating System :: OS Independent"])]

/-- The classifiers list passed to `setuptools.setup`. -/
def setupClassifiers : List String :=
  ["Programming Language :: Python :: 3",
   "License :: OSI Approved :: MIT License",
   "Operating System :: OS Independent"]

/-- Errors the module-level script of `setup.py` can raise before reaching
the `setuptools.setup` call. -/
inductive ScriptError where
  | fileNotFoundError
deriving DecidableEq, Repr

/-- The module-level script of `setup.py`: `open("README.md", "r")` raises
`FileNotFoundError` when no such file exists (modelling the file system as
an `Option String` holding the README contents when the file is present);
otherwise the script reads the file, rewrites the links and calls
`setuptools.setup` with `setupKwargs`. -/
def runSetupScript (readmeFile : Option String) :
    Except ScriptError (List (String × SetupValue)) :=
  match readmeFile with
  | none => .error .fileNotFoundError
  | some contents => .ok (setupKwargs contents)

/-- Checks whether `pat` occurs as a contiguous substring of `l`. -/
def containsPat (pat : List Char) : List Char → Bool
  | [] => startsWithPat pat []
  | c :: cs => startsWithPat pat (c :: cs) || containsPat pat cs

/-- Modelled from the spec: joining `parts` with the separator `sep`
interleaved.  A string equals `joinParts pat parts` with every part free of
`pat` exactly when its occurrences of `pat` sit at the join points, so
"replace every occurrence of `pat` by `rep`" means mapping such a string to
`joinParts rep parts`. -/
def joinParts (sep : List Char) : List (List Char) → List Char
  | [] => []
  | [p] => p
  | p :: ps => p ++ sep ++ joinParts sep ps

/-- C1: the setup call declares name "turbine", version "0.1.0" and
license "MIT". -/
theorem turbine_setup_name_version_license (readme : String) :
    (setupKwargs readme).lookup "name" = some (.str "turbine") ∧
    (setupKwargs readme).lookup "version" = some (.str "0.1.0") ∧
    (setupKwargs readme).lookup "license" = some (.str "MIT") :=
  ⟨rfl, rfl, rfl⟩

/-- C2: the install_requires argument is exactly the four Google Cloud
client libraries, in this order, and nothing else. -/
theorem turbine_setup_install_requires_exact (readme : String) :
    (setupKwargs readme).lookup "install_requires" =
      some (.strList ["google-cloud-pubsub", "google-cloud-storage",
                      "google-cloud-logging", "google-api-python-client"]) ∧
    ["google-cloud-pubsub", "google-cloud-storage",
     "google-cloud-logging", "google-api-python-client"].length = 4 :=
  ⟨rfl, rfl⟩

/-- C3: the setup call declares python_requires '>=3.6', the platforms
string "Posix; MacOS X; Windows", and the OS-independence classifier. -/
theorem turbine_setup_python_and_platforms (readme : String) :
    (setupKwargs readme).lookup "python_requires" = some (.str ">=3.6") ∧
    (setupKwargs readme).lookup "platforms" =
      some (.str "Posix; MacOS X; Windows") ∧
    (setupKwargs readme).lookup "classifiers" =
      some (.strList setupClassifiers) ∧
    "Operating System :: OS Independent" ∈ setupClassifiers :=
  ⟨rfl, rfl, rfl, by decide⟩

/-- C4: the license argument "MIT" names the same license as the classifier
"License :: OSI Approved :: MIT License" in the classifiers list. -/
theorem turbine_setup_license_consistent (readme : String) :
    (setupKwargs readme).lookup "license" = some (.str "MIT") ∧
    "License :: OSI Approved :: MIT License" ∈ setupClassifiers ∧
    "License :: OSI Approved :: " ++ "MIT" ++ " License" =
      "License :: OSI Approved :: MIT License" :=
  ⟨rfl, by decide, rfl⟩

/-- C5: the setup call declares author "Jeffrey Dudek", an author email, and
the exact description string about harnessing the google cloud. -/
theorem turbine_setup_author_description (readme : String) :
    (setupKwargs readme).lookup "author" = some (.str "Jeffrey Dudek") ∧
    (setupKwargs readme).lookup "author_email" =
      some (.str "jeffreydudek@gmail.com") ∧
    (setupKwargs readme).lookup "description" =
      some (.str "A Python 3 tool to harness the google cloud to run shell scripts") :=
  ⟨rfl, rfl, rfl⟩

/-- C6: the setup call passes no entry_points, scripts or console-script
keyword: its keywords are exactly the fourteen listed, none of which is a
CLI declaration. -/
theorem turbine_setup_no_cli_surface (readme : String) :
    (setupKwargs readme).map Prod.fst =
      ["name", "version", "author", "author_email", "description",
       "long_description", "long_description_content_type", "url", "packages",
       "license", "platforms", "install_requires", "python_requires",
       "classifiers"] ∧
    "entry_points" ∉ (setupKwargs readme).map Prod.fst ∧
    "scripts" ∉ (setupKwargs readme).map Prod.fst ∧
    "console_scripts" ∉ (setupKwargs readme).map Prod.fst := by
  have h : (setupKwargs readme).map Prod.fst =
      ["name", "version", "author", "author_email", "description",
       "long_description", "long_description_content_type", "url", "packages",
       "license", "platforms", "install_requires", "python_requires",
       "classifiers"] := rfl
  refine ⟨h, ?_, ?_, ?_⟩ <;> rw [h] <;> decide

/-- C9: when README.md does not exist the script raises FileNotFoundError
and the setup call is never reached, so no package metadata is declared;
when it exists the script declares the metadata computed from its
contents. -/
theorem turbine_script_readme_missing_error :
    runSetupScript none = .error .fileNotFoundError ∧
    (∀ kw, runSetupScript none ≠ .ok kw) ∧
    ∀ s, runSetupScript (some s) = .ok (setupKwargs s) :=
  ⟨rfl, fun _ h => Except.noConfusion h, fun _ => rfl⟩

theorem startsWithPat_append (pat : List Char) :
    ∀ l t, startsWithPat pat l = true → startsWithPat pat (l ++ t) = true := by
  induction pat with
  | nil => intro l t _; rfl
  | cons p ps ih =>
    intro l t h
    cases l with
    | nil => exact Bool.noConfusion h
    | cons c cs =>
      simp only [startsWithPat, Bool.and_eq_true, beq_iff_eq] at h
      show ((p == c) && startsWithPat ps (cs ++ t)) = true
      rw [Bool.and_eq_true, beq_iff_eq]
      exact ⟨h.1, ih cs t h.2⟩

theorem startsWithPat_eq_append (pat : List Char) :
    ∀ l, startsWithPat pat l = true → l = pat ++ List.drop pat.length l := by
  induction pat with
  | nil => intro l _; simp
  | cons p ps ih =>
    intro l h
    cases l with
    | nil => exact Bool.noConfusion h
    | cons c cs =>
      simp only [startsWithPat, Bool.and_eq_true, beq_iff_eq] at h
      obtain ⟨rfl, h2⟩ := h
      have htail := ih cs h2
      rw [List.cons_append, List.length_cons, List.drop_succ_cons, ← htail]

theorem startsWithPat_length_le (pat l : List Char)
    (h : startsWithPat pat l = true) : pat.length ≤ l.length := by
  have heq := startsWithPat_eq_append pat l h
  have hlen : l.length = pat.length + (List.drop pat.length l).length := by
    conv_lhs => rw [heq]
    rw [List.length_append]
  omega

theorem containsPat_nil (pat : List Char) (hpat : 0 < pat.length) :
    containsPat pat [] = false := by
  cases pat with
  | nil => simp at hpat
  | cons a as => rfl

theorem containsPat_append_of_startsWith (pat l t : List Char)
    (h : startsWithPat pat l = true) : containsPat pat (l ++ t) = true := by
  cases l with
  | nil =>
    cases pat with
    | nil =>
      cases t with
      | nil => rfl
      | cons c cs =>
        show (true || containsPat [] cs) = true
        rw [Bool.true_or]
    | cons a as => exact Bool.noConfusion h
  | cons c cs =>
    have h2 := startsWithPat_append pat (c :: cs) t h
    rw [List.cons_append] at h2
    show (startsWithPat pat (c :: (cs ++ t)) || containsPat pat (cs ++ t)) = true
    rw [h2, Bool.true_or]

theorem joinParts_cons_cons (sep p q : List Char) (ps : List (List Char)) :
    joinParts sep (p :: q :: ps) = p ++ sep ++ joinParts sep (q :: ps) := rfl

theorem joinParts_cons_head (sep p : List Char) (c : Char)
    (ps : List (List Char)) :
    joinParts sep ((c :: p) :: ps) = c :: joinParts sep (p :: ps) := by
  cases ps with
  | nil => rfl
  | cons q qs => rfl

theorem joinParts_head_append (sep p : List Char) (ps : List (List Char)) :
    ∃ t, joinParts sep (p :: ps) = p ++ t := by
  cases ps with
  | nil => exact ⟨[], by simp [joinParts]⟩
  | cons q qs =>
    exact ⟨sep ++ joinParts sep (q :: qs), by
      rw [joinParts_cons_cons, List.append_assoc]⟩

theorem replaceFuel_decomposition (pat rep : List Char) (hpat : 0 < pat.length) :
    ∀ fuel l, l.length ≤ fuel →
      ∃ parts, parts ≠ [] ∧
        l = joinParts pat parts ∧
        replaceFuel pat rep fuel l = joinParts rep parts ∧
        ∀ p ∈ parts, containsPat pat p = false := by
  intro fuel
  induction fuel with
  | zero =>
    intro l hl
    cases l with
    | cons c cs => simp at hl
    | nil =>
      refine ⟨[[]], by simp, rfl, rfl, ?_⟩
      intro p hp
      rw [List.mem_singleton] at hp
      subst hp
      exact containsPat_nil pat hpat
  | succ fuel ih =>
    intro l hl
    cases l with
    | nil =>
      refine ⟨[[]], by simp, rfl, rfl, ?_⟩
      intro p hp
      rw [List.mem_singleton] at hp
      subst hp
      exact containsPat_nil pat hpat
    | cons c cs =>
      have hstep : replaceFuel pat rep (fuel + 1) (c :: cs) =
          if 0 < pat.length ∧ startsWithPat pat (c :: cs) = true then
            rep ++ replaceFuel pat rep fuel (List.drop pat.length (c :: cs))
          else c :: replaceFuel pat rep fuel cs := rfl
      have hl' : cs.length + 1 ≤ fuel + 1 := by simpa using hl
      by_cases hmatch : 0 < pat.length ∧ startsWithPat pat (c :: cs) = true
      · have hdrop_len : (List.drop pat.length (c :: cs)).length ≤ fuel := by
          rw [List.length_drop, List.length_cons]
          omega
        obtain ⟨parts, hne, hjoin, hrepl, hfree⟩ :=
          ih (List.drop pat.length (c :: cs)) hdrop_len
        cases parts with
        | nil => exact absurd rfl hne
        | cons p ps =>
          refine ⟨[] :: p :: ps, by simp, ?_, ?_, ?_⟩
          · rw [joinParts_cons_cons, ← hjoin]
            exact startsWithPat_eq_append pat (c :: cs) hmatch.2
          · rw [hstep, if_pos hmatch, joinParts_cons_cons, hrepl]
            rfl
          · intro q hq
            rcases List.mem_cons.mp hq with rfl | hq2
            · exact containsPat_nil pat hpat
            · exact hfree q hq2
      · have hsw : startsWithPat pat (c :: cs) = false := by
          cases hb : startsWithPat pat (c :: cs) with
          | false => rfl
          | true => exact absurd ⟨hpat, hb⟩ hmatch
        obtain ⟨parts, hne, hjoin, hrepl, hfree⟩ := ih cs (by omega)
        cases parts with
        | nil => exact absurd rfl hne
        | cons p ps =>
          refine ⟨(c :: p) :: ps, by simp, ?_, ?_, ?_⟩
          · rw [joinParts_cons_head, ← hjoin]
          · rw [hstep, if_neg hmatch, joinParts_cons_head, hrepl]
          · intro q hq
            rcases List.mem_cons.mp hq with rfl | hq2
            · have hp : containsPat pat p = false :=
                hfree p (List.mem_cons_self p ps)
              have hswp : startsWithPat pat (c :: p) = false := by
                cases hb : startsWithPat pat (c :: p) with
                | false => rfl
                | true =>
                  obtain ⟨t, ht⟩ := joinParts_head_append pat p ps
                  have hcs2 : c :: cs = (c :: p) ++ t := by
                    rw [hjoin, ht, List.cons_append]
                  have : startsWithPat pat (c :: cs) = true := by
                    rw [hcs2]
                    exact startsWithPat_append pat (c :: p) t hb
                  rw [this] at hsw
                  exact Bool.noConfusion hsw
              have hcp : containsPat pat (c :: p) =
                  (startsWithPat pat (c :: p) || containsPat pat p) := rfl
              rw [hcp, hswp, hp]
              rfl
            · exact hfree q (List.mem_cons_of_mem p hq2)

theorem replaceFuel_length_le (pat rep : List Char)
    (hlen : pat.length ≤ rep.length) :
    ∀ fuel l, l.length ≤ fuel →
      l.length ≤ (replaceFuel pat rep fuel l).length := by
  intro fuel
  induction fuel with
  | zero => intro l _; exact Nat.le_refl _
  | succ fuel ih =>
    intro l hl
    cases l with
    | nil => exact Nat.le_refl _
    | cons c cs =>
      have hstep : replaceFuel pat rep (fuel + 1) (c :: cs) =
          if 0 < pat.length ∧ startsWithPat pat (c :: cs) = true then
            rep ++ replaceFuel pat rep fuel (List.drop pat.length (c :: cs))
          else c :: replaceFuel pat rep fuel cs := rfl
      have hl' : cs.length + 1 ≤ fuel + 1 := by simpa using hl
      by_cases hmatch : 0 < pat.length ∧ startsWithPat pat (c :: cs) = true
      · have hdrop_len : (List.drop pat.length (c :: cs)).length ≤ fuel := by
          rw [List.length_drop, List.length_cons]
          have := hmatch.1
          omega
        have h1 := ih (List.drop pat.length (c :: cs)) hdrop_len
        rw [List.length_drop, List.length_cons] at h1
        have h2 := startsWithPat_length_le pat (c :: cs) hmatch.2
        rw [List.length_cons] at h2
        rw [hstep, if_pos hmatch, List.length_append, List.length_cons]
        omega
      · have h1 := ih cs (by omega)
        rw [hstep, if_neg hmatch, List.length_cons, List.length_cons]
        omega

theorem replaceFuel_length_lt (pat rep : List Char) (hpat : 0 < pat.length)
    (hlen : pat.length < rep.length) :
    ∀ fuel l, l.length ≤ fuel → containsPat pat l = true →
      l.length < (replaceFuel pat rep fuel l).length := by
  intro fuel
  induction fuel with
  | zero =>
    intro l hl hcont
    cases l with
    | cons c cs => simp at hl
    | nil =>
      rw [containsPat_nil pat hpat] at hcont
      exact Bool.noConfusion hcont
  | succ fuel ih =>
    intro l hl hcont
    cases l with
    | nil =>
      rw [containsPat_nil pat hpat] at hcont
      exact Bool.noConfusion hcont
    | cons c cs =>
      have hstep : replaceFuel pat rep (fuel + 1) (c :: cs) =
          if 0 < pat.length ∧ startsWithPat pat (c :: cs) = true then
            rep ++ replaceFuel pat rep fuel (List.drop pat.length (c :: cs))
          else c :: replaceFuel pat rep fuel cs := rfl
      have hl' : cs.length + 1 ≤ fuel + 1 := by simpa using hl
      by_cases hmatch : 0 < pat.length ∧ startsWithPat pat (c :: cs) = true
      · have hdrop_len : (List.drop pat.length (c :: cs)).length ≤ fuel := by
          rw [List.length_drop, List.length_cons]
          omega
        have h1 := replaceFuel_length_le pat rep (Nat.le_of_lt hlen) fuel
          (List.drop pat.length (c :: cs)) hdrop_len
        rw [List.length_drop, List.length_cons] at h1
        have h2 := startsWithPat_length_le pat (c :: cs) hmatch.2
        rw [List.length_cons] at h2
        rw [hstep, if_pos hmatch, List.length_append, List.length_cons]
        omega
      · have hsw : startsWithPat pat (c :: cs) = false := by
          cases hb : startsWithPat pat (c :: cs) with
          | false => rfl
          | true => exact absurd ⟨hpat, hb⟩ hmatch
        have hor : (startsWithPat pat (c :: cs) || containsPat pat cs) = true :=
          hcont
        rw [hsw, Bool.false_or] at hor
        have h1 := ih cs (by omega) hor
        rw [hstep, if_neg hmatch, List.length_cons, List.length_cons]
        omega

theorem replaceFuel_contains (pat rep : List Char) (hpat : 0 < pat.length)
    (hrep : startsWithPat pat rep = true) :
    ∀ fuel l, l.length ≤ fuel → containsPat pat l = true →
      containsPat pat (replaceFuel pat rep fuel l) = true := by
  intro fuel
  induction fuel with
  | zero =>
    intro l hl hcont
    cases l with
    | cons c cs => simp at hl
    | nil =>
      rw [containsPat_nil pat hpat] at hcont
      exact Bool.noConfusion hcont
  | succ fuel ih =>
    intro l hl hcont
    cases l with
    | nil =>
      rw [containsPat_nil pat hpat] at hcont
      exact Bool.noConfusion hcont
    | cons c cs =>
      have hstep : replaceFuel pat rep (fuel + 1) (c :: cs) =
          if 0 < pat.length ∧ startsWithPat pat (c :: cs) = true then
            rep ++ replaceFuel pat rep fuel (List.drop pat.length (c :: cs))
          else c :: replaceFuel pat rep fuel cs := rfl
      have hl' : cs.length + 1 ≤ fuel + 1 := by simpa using hl
      by_cases hmatch : 0 < pat.length ∧ startsWithPat pat (c :: cs) = true
      · rw [hstep, if_pos hmatch]
        exact containsPat_append_of_startsWith pat rep
          (replaceFuel pat rep fuel (List.drop pat.length (c :: cs))) hrep
      · have hsw : startsWithPat pat (c :: cs) = false := by
          cases hb : startsWithPat pat (c :: cs) with
          | false => rfl
          | true => exact absurd ⟨hpat, hb⟩ hmatch
        have hor : (startsWithPat pat (c :: cs) || containsPat pat cs) = true :=
          hcont
        rw [hsw, Bool.false_or] at hor
        have h1 := ih cs (by omega) hor
        rw [hstep, if_neg hmatch]
        show (startsWithPat pat (c :: replaceFuel pat rep fuel cs) ||
          containsPat pat (replaceFuel pat rep fuel cs)) = true
        rw [h1, Bool.or_true]

/-- C7: the long_description passed to setup is the README contents with
every occurrence of "](" replaced by the absolute-URL opener: the README
splits into pattern-free parts joined by "](", and the long_description is
exactly those same parts joined by the replacement, so replacements happen
at every occurrence of "](" in the README and nowhere else. -/
theorem turbine_long_description_replaces_all (readme : String) :
    ∃ parts : List (List Char),
      readme.data = joinParts linkPat.data parts ∧
      (longDescription readme).data = joinParts linkTarget.data parts ∧
      (setupKwargs readme).lookup "long_description" =
        some (.str (longDescription readme)) ∧
      ∀ p ∈ parts, containsPat linkPat.data p = false := by
  obtain ⟨parts, _, h1, h2, h3⟩ :=
    replaceFuel_decomposition linkPat.data linkTarget.data (by decide)
      readme.data.length readme.data (Nat.le_refl _)
  exact ⟨parts, h1, h2, rfl, h3⟩

/-- C8: the link rewriting is not idempotent: on any README containing at
least one "](", applying the transformation twice differs from applying it
once, because the replacement text itself starts with "](". -/
theorem turbine_link_rewrite_not_idempotent (s : String)
    (h : containsPat linkPat.data s.data = true) :
    longDescription (longDescription s) ≠ longDescription s := by
  intro hEq
  have hc : containsPat linkPat.data (longDescription s).data = true :=
    replaceFuel_contains linkPat.data linkTarget.data (by decide) (by decide)
      s.data.length s.data (Nat.le_refl _) h
  have hlt : (longDescription s).data.length <
      (longDescription (longDescription s)).data.length :=
    replaceFuel_length_lt linkPat.data linkTarget.data (by decide) (by decide)
      (longDescription s).data.length (longDescription s).data
      (Nat.le_refl _) hc
  rw [hEq] at hlt
  exact Nat.lt_irrefl _ hlt

/-- Witness for C8 at the concrete README "[a](b)". -/
theorem turbine_link_rewrite_not_idempotent_witness :
    containsPat linkPat.data ("[a](b)" : String).data = true ∧
    longDescription (longDescription "[a](b)") ≠ longDescription "[a](b)" :=
  ⟨by decide, turbine_link_rewrite_not_idempotent "[a](b)" (by decide)⟩
